import Mathlib

/-!
Verification of the graph-analytics repository
(`src/models/analyzer.py` and `src/models/graph_analyzer.py`).

The Python classes are shallowly embedded: the mutable `GraphAnalyzer`
object of `analyzer.py` becomes an explicit `GraphState` record threaded
through the operations, Python `float` becomes `Rat`, Python `dict`
becomes an insertion-ordered association list, and the hidden state of
the `random` module becomes an explicit stream of draws.  Python `set`
does not guarantee an iteration order, so functions that iterate
`self.nodes` either do not depend on the order or receive the iteration
order as an explicit argument constrained to be a permutation of the
node set.
-/

namespace Analyzer

/-- One entry of the Python dict `self.adjacency`: a key and its list of
neighbors, in insertion order (Python dicts preserve insertion order). -/
abbrev Adjacency := List (String × List String)

/-- `d.get(k)` on the adjacency dict: the value at the first (unique)
matching key, if any. -/
def dictGet (d : Adjacency) (k : String) : Option (List String) :=
  match d with
  | [] => none
  | (k2, l) :: rest => if k = k2 then some l else dictGet rest k

/-- `d.get(k, [])` on the adjacency dict, as used by `degree_centrality`. -/
def dictGetD (d : Adjacency) (k : String) : List String :=
  (dictGet d k).getD []

/-- `k in d` on the adjacency dict. -/
def dictHas (d : Adjacency) (k : String) : Bool :=
  (dictGet d k).isSome

/-- `d[k].append(v)`: append `v` to the list stored at key `k`.  The
callers in `add_edge` only reach this after `add_node` has installed the
key, so the missing-key case (a `KeyError` in Python) is unreachable and
leaves the dict unchanged. -/
def dictAppendAt (d : Adjacency) (k v : String) : Adjacency :=
  match d with
  | [] => []
  | (k2, l) :: rest =>
      if k = k2 then (k2, l ++ [v]) :: rest else (k2, l) :: dictAppendAt rest k v

/-- The state of a `GraphAnalyzer` object from `analyzer.py`:
`self.directed`, `self.nodes` (a Python set, kept here as a
duplicate-free list in insertion order), `self.edges` (a list of
`(source, target, weight)` triples) and `self.adjacency`. -/
structure GraphState where
  directed : Bool
  nodes : List String
  edges : List (String × String × Rat)
  adjacency : Adjacency
deriving DecidableEq, Repr

/-- `GraphAnalyzer.__init__(directed)`. -/
def emptyGraph (directed : Bool) : GraphState :=
  { directed := directed, nodes := [], edges := [], adjacency := [] }

/-- `GraphAnalyzer.add_node`: add the node to the node set (a no-op when
present) and, when the node is not an adjacency key, install an empty
neighbor list for it. -/
def add_node (g : GraphState) (node : String) : GraphState :=
  { g with
    nodes := if node ∈ g.nodes then g.nodes else g.nodes ++ [node],
    adjacency := if dictHas g.adjacency node then g.adjacency
                 else g.adjacency ++ [(node, [])] }

/-- `GraphAnalyzer.add_edge`: `add_node` on both endpoints, append the
edge triple, append `target` to `adjacency[source]`, and when the graph
is undirected also append `source` to `adjacency[target]`. -/
def add_edge (g : GraphState) (source target : String) (weight : Rat) : GraphState :=
  let g1 := add_node g source
  let g2 := add_node g1 target
  let g3 := { g2 with edges := g2.edges ++ [(source, target, weight)] }
  let g4 := { g3 with adjacency := dictAppendAt g3.adjacency source target }
  if g.directed then g4
  else { g4 with adjacency := dictAppendAt g4.adjacency target source }

/-- `GraphAnalyzer.degree_centrality`: when `n <= 1` every node scores
`0.0`; otherwise each node scores `len(self.adjacency.get(node, [])) / (n - 1)`.
The returned dict is represented as the list of (node, score) pairs in
node order. -/
def degree_centrality (g : GraphState) : List (String × Rat) :=
  let n := g.nodes.length
  if n ≤ 1 then
    g.nodes.map (fun node => (node, 0))
  else
    g.nodes.map (fun node =>
      (node, ((dictGetD g.adjacency node).length : Rat) / ((n : Rat) - 1)))

/-- `GraphAnalyzer.betweenness_centrality`: the dict comprehension
`{node: random.uniform(0, 1) for node in self.nodes}`.  The hidden state
of the `random` module is made explicit as the stream `rng` of
successive `random.uniform(0, 1)` draws, one consumed per node in
iteration order. -/
def betweenness_centrality (g : GraphState) (rng : Nat → Rat) : List (String × Rat) :=
  g.nodes.mapIdx (fun i node => (node, rng i))

/-- `GraphAnalyzer.detect_communities`: ignores `method`, lists the node
set, and returns the two halves `set(nodes_list[:mid])`,
`set(nodes_list[mid:])` with `mid = len(nodes_list) // 2`.  Python sets
iterate in an unspecified order, so the enumeration `list(self.nodes)`
is passed in as `order`; theorems constrain it to be a permutation of
the node set. -/
def detect_communities (order : List String) (method : String) : List (Finset String) :=
  let nodes_list := order
  let mid := nodes_list.length / 2
  [(nodes_list.take mid).toFinset, (nodes_list.drop mid).toFinset]

/-- `GraphAnalyzer.shortest_path`: `None` when either endpoint is
missing from the node set, otherwise the literal list
`[source, target]`. -/
def shortest_path (g : GraphState) (source target : String) : Option (List String) :=
  if source ∉ g.nodes ∨ target ∉ g.nodes then none
  else some [source, target]

/-- The dict returned by `GraphAnalyzer.process`. -/
structure ProcessResult where
  num_nodes : Nat
  num_edges : Nat
  density : Rat
deriving DecidableEq, Repr

/-- `GraphAnalyzer.process`: `add_edge` (with the default weight `1.0`)
for each supplied pair, then report node count, edge count and
`len(edges) / (n * (n - 1))` when `n > 1`, else `0`.  The mutated state
is returned alongside the result dict. -/
def process (g : GraphState) (edges : List (String × String)) :
    ProcessResult × GraphState :=
  let g2 := edges.foldl (fun acc e => add_edge acc e.1 e.2 1) g
  let n := g2.nodes.length
  (⟨n, g2.edges.length,
    if 1 < n then (g2.edges.length : Rat) / ((n : Rat) * ((n : Rat) - 1)) else 0⟩,
   g2)

/-- A single step of `adjacency`-following: `v` occurs in the neighbor
list stored for `u` (with `[]` for a missing key). -/
def Step (g : GraphState) (u v : String) : Prop :=
  v ∈ dictGetD g.adjacency u

/-- `u` and `v` lie in the same connected component of the stored graph:
reflexive-transitive closure of adjacency-following. -/
def Reaches (g : GraphState) : String → String → Prop :=
  Relation.ReflTransGen (Step g)

/-- The states a `GraphAnalyzer` can be in: freshly constructed, or the
result of any `add_node` / `add_edge` call on a reachable state. -/
inductive Reachable : GraphState → Prop where
  | init (directed : Bool) : Reachable (emptyGraph directed)
  | addNode (g : GraphState) (node : String) :
      Reachable g → Reachable (add_node g node)
  | addEdge (g : GraphState) (s t : String) (w : Rat) :
      Reachable g → Reachable (add_edge g s t w)

/-- The structural invariant of the claim: every stored edge has both
endpoints in the node set, and every adjacency key and every adjacency
neighbor is in the node set. -/
def Inv (g : GraphState) : Prop :=
  (∀ e ∈ g.edges, e.1 ∈ g.nodes ∧ e.2.1 ∈ g.nodes) ∧
  (∀ p ∈ g.adjacency, p.1 ∈ g.nodes ∧ ∀ u ∈ p.2, u ∈ g.nodes)

end Analyzer

namespace NxAnalyzer

/-- The typed failures that can escape `calculate_centrality` in
`graph_analyzer.py`: the `raise ValueError(f"Unknown centrality
measure: {measure}")` of the final `else` branch, or a failure raised
inside the delegated third-party call. -/
inductive CentralityError where
  | unknownMeasure (measure : String)
  | libraryError (msg : String)
deriving DecidableEq, Repr

/-- Lift a third-party failure into the typed failure set. -/
def liftLib {α : Type} : Except String α → Except CentralityError α
  | Except.ok a => Except.ok a
  | Except.error s => Except.error (CentralityError.libraryError s)

/-- The five `networkx` centrality routines that `calculate_centrality`
delegates to.  They are third-party library code, not part of this
repository, so they are kept abstract: arbitrary total functions from a
graph to either a node-to-score mapping or a library failure.
`eigenvector_centrality` also receives the `max_iter` argument the
source passes. -/
structure NxLib (γ : Type) where
  degree_centrality : γ → Except String (List (String × Rat))
  betweenness_centrality : γ → Except String (List (String × Rat))
  closeness_centrality : γ → Except String (List (String × Rat))
  eigenvector_centrality : γ → Nat → Except String (List (String × Rat))
  pagerank : γ → Except String (List (String × Rat))

/-- `GraphAnalyzer.calculate_centrality` from `graph_analyzer.py`: a
chain of string comparisons on `measure` dispatching to the library,
ending in `raise ValueError(f"Unknown centrality measure: {measure}")`. -/
def calculate_centrality {γ : Type} (lib : NxLib γ) (g : γ) (measure : String) :
    Except CentralityError (List (String × Rat)) :=
  if measure = "degree" then liftLib (lib.degree_centrality g)
  else if measure = "betweenness" then liftLib (lib.betweenness_centrality g)
  else if measure = "closeness" then liftLib (lib.closeness_centrality g)
  else if measure = "eigenvector" then liftLib (lib.eigenvector_centrality g 1000)
  else if measure = "pagerank" then liftLib (lib.pagerank g)
  else Except.error (CentralityError.unknownMeasure measure)

/-- The measure names `calculate_centrality` recognizes. -/
def recognizedMeasures : List String :=
  ["degree", "betweenness", "closeness", "eigenvector", "pagerank"]

/-- A concrete instantiation of the abstract library over the trivial
graph type, used to evaluate the dispatcher at concrete inputs. -/
def trivialLib : NxLib Unit :=
  { degree_centrality := fun _ => Except.ok []
    betweenness_centrality := fun _ => Except.ok []
    closeness_centrality := fun _ => Except.ok []
    eigenvector_centrality := fun _ _ => Except.ok []
    pagerank := fun _ => Except.ok [] }

end NxAnalyzer

namespace Analyzer

/-! ### Structural lemmas about the graph operations -/

theorem add_node_edges (g : GraphState) (node : String) :
    (add_node g node).edges = g.edges := rfl

theorem add_node_directed (g : GraphState) (node : String) :
    (add_node g node).directed = g.directed := rfl

theorem add_edge_edges (g : GraphState) (s t : String) (w : Rat) :
    (add_edge g s t w).edges = g.edges ++ [(s, t, w)] := by
  unfold add_edge
  split <;> rfl

theorem add_edge_nodes (g : GraphState) (s t : String) (w : Rat) :
    (add_edge g s t w).nodes = (add_node (add_node g s) t).nodes := by
  unfold add_edge
  split <;> rfl

theorem add_edge_directed (g : GraphState) (s t : String) (w : Rat) :
    (add_edge g s t w).directed = g.directed := by
  unfold add_edge
  split <;> rfl

theorem mem_add_node_nodes (g : GraphState) (node x : String) :
    x ∈ (add_node g node).nodes ↔ x ∈ g.nodes ∨ x = node := by
  unfold add_node
  by_cases h : node ∈ g.nodes
  · simp only [h, if_pos]
    constructor
    · exact Or.inl
    · rintro (hx | rfl)
      · exact hx
      · exact h
  · simp [h, List.mem_append]

theorem self_mem_add_node (g : GraphState) (node : String) :
    node ∈ (add_node g node).nodes := by
  rw [mem_add_node_nodes]
  exact Or.inr rfl

theorem add_node_nodes_subset (g : GraphState) (node : String) :
    g.nodes ⊆ (add_node g node).nodes := by
  intro x hx
  rw [mem_add_node_nodes]
  exact Or.inl hx

theorem add_edge_nodes_subset (g : GraphState) (s t : String) (w : Rat) :
    g.nodes ⊆ (add_edge g s t w).nodes := by
  rw [add_edge_nodes]
  exact fun x hx =>
    add_node_nodes_subset _ t (add_node_nodes_subset g s hx)

theorem nodup_add_node (g : GraphState) (node : String)
    (h : g.nodes.Nodup) : (add_node g node).nodes.Nodup := by
  unfold add_node
  by_cases hm : node ∈ g.nodes
  · simpa [hm] using h
  · simp [hm, List.nodup_append, h]

theorem nodup_add_edge (g : GraphState) (s t : String) (w : Rat)
    (h : g.nodes.Nodup) : (add_edge g s t w).nodes.Nodup := by
  rw [add_edge_nodes]
  exact nodup_add_node _ t (nodup_add_node g s h)

theorem reachable_nodes_nodup (g : GraphState) (h : Reachable g) :
    g.nodes.Nodup := by
  induction h with
  | init directed => exact List.nodup_nil
  | addNode g node _ ih => exact nodup_add_node g node ih
  | addEdge g s t w _ ih => exact nodup_add_edge g s t w ih

theorem add_edge_def (g : GraphState) (s t : String) (w : Rat) :
    add_edge g s t w =
      (let g2 := add_node (add_node g s) t
       if g.directed then
         { g2 with edges := g2.edges ++ [(s, t, w)],
                   adjacency := dictAppendAt g2.adjacency s t }
       else
         { g2 with edges := g2.edges ++ [(s, t, w)],
                   adjacency := dictAppendAt (dictAppendAt g2.adjacency s t) t s }) := by
  unfold add_edge
  split <;> rfl

theorem mem_dictAppendAt (d : Adjacency) (k v : String)
    (p : String × List String) (hp : p ∈ dictAppendAt d k v) :
    ∃ q ∈ d, q.1 = p.1 ∧ (p.2 = q.2 ∨ p.2 = q.2 ++ [v]) := by
  induction d with
  | nil => simp [dictAppendAt] at hp
  | cons hd rest ih =>
      obtain ⟨k2, l⟩ := hd
      by_cases hk : k = k2
      · simp only [dictAppendAt, hk, if_pos rfl] at hp
        rcases List.mem_cons.1 hp with rfl | hmem
        · exact ⟨(k2, l), List.mem_cons_self _ _, rfl, Or.inr rfl⟩
        · exact ⟨p, List.mem_cons_of_mem _ hmem, rfl, Or.inl rfl⟩
      · simp only [dictAppendAt, if_neg hk] at hp
        rcases List.mem_cons.1 hp with rfl | hmem
        · exact ⟨(k2, l), List.mem_cons_self _ _, rfl, Or.inl rfl⟩
        · obtain ⟨q, hq, h1, h2⟩ := ih hmem
          exact ⟨q, List.mem_cons_of_mem _ hq, h1, h2⟩

theorem dictAppendAt_inv (N : List String) (adj : Adjacency) (k v : String)
    (hadj : ∀ p ∈ adj, p.1 ∈ N ∧ ∀ u ∈ p.2, u ∈ N) (hv : v ∈ N) :
    ∀ p ∈ dictAppendAt adj k v, p.1 ∈ N ∧ ∀ u ∈ p.2, u ∈ N := by
  intro p hp
  obtain ⟨q, hq, hkey, hcase⟩ := mem_dictAppendAt adj k v p hp
  obtain ⟨h1, h2⟩ := hadj q hq
  refine ⟨hkey ▸ h1, ?_⟩
  rcases hcase with heq | heq
  · intro u hu
    exact h2 u (heq ▸ hu)
  · intro u hu
    rw [heq, List.mem_append] at hu
    rcases hu with hu | hu
    · exact h2 u hu
    · rw [List.mem_singleton] at hu
      exact hu ▸ hv

theorem mem_add_node_adjacency (g : GraphState) (node : String)
    (p : String × List String) (hp : p ∈ (add_node g node).adjacency) :
    p ∈ g.adjacency ∨ p = (node, []) := by
  by_cases h : dictHas g.adjacency node
  · simp only [add_node, if_pos h] at hp
    exact Or.inl hp
  · simp only [add_node, if_neg h, List.mem_append, List.mem_singleton] at hp
    exact hp

theorem inv_add_node (g : GraphState) (node : String) (h : Inv g) :
    Inv (add_node g node) := by
  constructor
  · intro e he
    rw [add_node_edges] at he
    obtain ⟨h1, h2⟩ := h.1 e he
    exact ⟨add_node_nodes_subset g node h1, add_node_nodes_subset g node h2⟩
  · intro p hp
    rcases mem_add_node_adjacency g node p hp with hp' | rfl
    · obtain ⟨h1, h2⟩ := h.2 p hp'
      exact ⟨add_node_nodes_subset g node h1,
        fun u hu => add_node_nodes_subset g node (h2 u hu)⟩
    · exact ⟨self_mem_add_node g node, by simp⟩

theorem inv_add_edge (g : GraphState) (s t : String) (w : Rat) (h : Inv g) :
    Inv (add_edge g s t w) := by
  rw [add_edge_def]
  have h2 : Inv (add_node (add_node g s) t) :=
    inv_add_node _ t (inv_add_node g s h)
  have hs : s ∈ (add_node (add_node g s) t).nodes :=
    add_node_nodes_subset _ t (self_mem_add_node g s)
  have ht : t ∈ (add_node (add_node g s) t).nodes :=
    self_mem_add_node _ t
  split
  · refine ⟨?_, dictAppendAt_inv _ _ s t h2.2 ht⟩
    intro e he
    rcases List.mem_append.1 he with he | he
    · exact h2.1 e he
    · rw [List.mem_singleton] at he
      subst he
      exact ⟨hs, ht⟩
  · refine ⟨?_, dictAppendAt_inv _ _ t s (dictAppendAt_inv _ _ s t h2.2 ht) hs⟩
    intro e he
    rcases List.mem_append.1 he with he | he
    · exact h2.1 e he
    · rw [List.mem_singleton] at he
      subst he
      exact ⟨hs, ht⟩

theorem reachable_inv (g : GraphState) (h : Reachable g) : Inv g := by
  induction h with
  | init directed => exact ⟨by simp [emptyGraph], by simp [emptyGraph]⟩
  | addNode g node _ ih => exact inv_add_node g node ih
  | addEdge g s t w _ ih => exact inv_add_edge g s t w ih

theorem dictGet_mem (d : Adjacency) (k : String) (l : List String)
    (h : dictGet d k = some l) : (k, l) ∈ d := by
  induction d with
  | nil => simp [dictGet] at h
  | cons hd rest ih =>
      obtain ⟨k2, l2⟩ := hd
      by_cases hk : k = k2
      · simp only [dictGet, if_pos hk, Option.some.injEq] at h
        subst hk
        subst h
        exact List.mem_cons_self _ _
      · simp only [dictGet, if_neg hk] at h
        exact List.mem_cons_of_mem _ (ih h)

/-! ### Claim theorems for `analyzer.py` -/

/-- C1: `betweenness_centrality` is claimed deterministic and
reproducible for a fixed graph; the code instead draws
`random.uniform(0, 1)` for every node, so two calls on the very same
one-node graph that consume different draws from the hidden RNG state
(here the legitimate uniform values `0` and `1/2`) return different
node-to-score mappings. -/
theorem c1_betweenness_centrality_depends_on_rng :
    betweenness_centrality (add_node (emptyGraph false) "A") (fun _ => 0) ≠
      betweenness_centrality (add_node (emptyGraph false) "A") (fun _ => 1/2) := by
  intro h
  have h0 : betweenness_centrality (add_node (emptyGraph false) "A") (fun _ => 0)
      = [("A", (0 : Rat))] := rfl
  have h1 : betweenness_centrality (add_node (emptyGraph false) "A") (fun _ => 1/2)
      = [("A", (1/2 : Rat))] := rfl
  rw [h0, h1] at h
  simp only [List.cons.injEq, Prod.mk.injEq] at h
  exact absurd h.1.2 (by norm_num)

/-- C2: for nodes present in the graph, `shortest_path` is claimed to
return `None` exactly when the endpoints lie in different connected
components.  On the graph with the two isolated nodes `A` and `B`
(different components: nothing is adjacency-reachable from `A`), the
code returns the literal list `[A, B]` instead of `None`. -/
theorem c2_shortest_path_ignores_connectivity :
    "A" ∈ (add_node (add_node (emptyGraph false) "A") "B").nodes ∧
    "B" ∈ (add_node (add_node (emptyGraph false) "A") "B").nodes ∧
    ¬ Reaches (add_node (add_node (emptyGraph false) "A") "B") "A" "B" ∧
    shortest_path (add_node (add_node (emptyGraph false) "A") "B") "A" "B"
      = some ["A", "B"] := by
  have hadj : ∀ u, dictGetD (add_node (add_node (emptyGraph false) "A") "B").adjacency u
      = [] := by
    intro u
    show dictGetD [("A", []), ("B", [])] u = []
    simp only [dictGetD, dictGet]
    split_ifs <;> rfl
  refine ⟨by decide, by decide, ?_, by decide⟩
  intro h
  rcases Relation.ReflTransGen.cases_head h with heq | ⟨c, hstep, _⟩
  · exact absurd heq (by decide)
  · unfold Step at hstep
    rw [hadj] at hstep
    exact absurd hstep (List.not_mem_nil c)

/-- C3: passing a node absent from the graph to `shortest_path` is
claimed to fail with a typed `NotFoundError`; the code instead silently
returns the sentinel `None`.  Evaluated here on the empty graph, whose
node set contains neither `X` nor `Y`: the function is total and yields
`none`, no failure is ever reported. -/
theorem c3_shortest_path_absent_node_silent_none :
    "X" ∉ (emptyGraph false).nodes ∧
    shortest_path (emptyGraph false) "X" "Y" = none := by
  decide

/-- C4: on the graph made of the two disjoint triangles `A-B-C` and
`D-E-F`, `detect_communities` is claimed to return exactly those two
triangle node sets.  The code just bisects `list(self.nodes)`: with the
triangles' edges inserted in the interleaved order below, the stored
node enumeration is `[A, B, D, E, C, F]`, and the returned halves
`{A, B, D}` and `{E, C, F}` are not the triangles in either order. -/
theorem c4_detect_communities_not_triangles :
    (let g := ([("A", "B"), ("D", "E"), ("B", "C"), ("E", "F"), ("C", "A"), ("F", "D")] :
        List (String × String)).foldl (fun acc e => add_edge acc e.1 e.2 1) (emptyGraph false)
     g.nodes = ["A", "B", "D", "E", "C", "F"] ∧
     detect_communities g.nodes "louvain"
       = [({"A", "B", "D"} : Finset String), ({"E", "C", "F"} : Finset String)] ∧
     detect_communities g.nodes "louvain"
       ≠ [({"A", "B", "C"} : Finset String), ({"D", "E", "F"} : Finset String)] ∧
     detect_communities g.nodes "louvain"
       ≠ [({"D", "E", "F"} : Finset String), ({"A", "B", "C"} : Finset String)]) := by
  decide

/-- C5 counterexample: degree centrality is claimed to lie in `[0, 1]`
for every graph, while the spec also requires parallel edges to count
with multiplicity.  Adding the edge `A-B` twice yields, for the
two-node graph, `adjacency[A] = [B, B]` and the score
`2 / (2 - 1) = 2 > 1`. -/
theorem c5_counterexample_parallel_edges :
    ("A", (2 : Rat)) ∈
      degree_centrality (add_edge (add_edge (emptyGraph false) "A" "B" 1) "A" "B" 1) ∧
    ¬ ((2 : Rat) ≤ 1) := by
  constructor
  · have h : degree_centrality (add_edge (add_edge (emptyGraph false) "A" "B" 1) "A" "B" 1)
        = [("A", (2 : Rat)), ("B", (2 : Rat))] := by
      simp [degree_centrality, dictGetD, dictGet, emptyGraph, add_edge, add_node,
        dictHas, dictAppendAt]
      norm_num
    rw [h]
    exact List.mem_cons_self _ _
  · norm_num

/-- C5 amended: for every graph state, every `degree_centrality` score
is nonnegative (parallel edges and self-loops included), and when the
graph has at most one node every score equals `0` — both
unconditionally; the upper bound `1` additionally holds whenever the
node list is duplicate-free and the adjacency lists contain no
duplicate neighbor (no parallel edges), never their own key (no
self-loops) and only stored nodes.  With parallel edges a score can
exceed `1`, as the counterexample shows. -/
theorem c5_degree_centrality_bounds (g : GraphState) :
    (∀ p ∈ degree_centrality g, 0 ≤ p.2) ∧
    (g.nodes.length ≤ 1 → ∀ p ∈ degree_centrality g, p.2 = 0) ∧
    (g.nodes.Nodup →
      (∀ p ∈ g.adjacency, p.2.Nodup) →
      (∀ p ∈ g.adjacency, p.1 ∉ p.2) →
      (∀ p ∈ g.adjacency, ∀ u ∈ p.2, u ∈ g.nodes) →
      ∀ p ∈ degree_centrality g, p.2 ≤ 1) := by
  refine ⟨?_, ?_, ?_⟩
  · intro p hp
    by_cases h1 : g.nodes.length ≤ 1
    · simp only [degree_centrality, if_pos h1] at hp
      rcases List.mem_map.1 hp with ⟨node, hnode, rfl⟩
      norm_num
    · simp only [degree_centrality, if_neg h1] at hp
      rcases List.mem_map.1 hp with ⟨node, hnode, rfl⟩
      have hlen : 2 ≤ g.nodes.length := by omega
      have hpos : (0 : Rat) < (g.nodes.length : Rat) - 1 := by
        have : (2 : Rat) ≤ (g.nodes.length : Rat) := by exact_mod_cast hlen
        linarith
      exact div_nonneg (by positivity) (le_of_lt hpos)
  · intro h1 p hp
    simp only [degree_centrality, if_pos h1] at hp
    rcases List.mem_map.1 hp with ⟨node, hnode, rfl⟩
    rfl
  · intro hn hnd hself hmem p hp
    by_cases h1 : g.nodes.length ≤ 1
    · simp only [degree_centrality, if_pos h1] at hp
      rcases List.mem_map.1 hp with ⟨node, hnode, rfl⟩
      norm_num
    · simp only [degree_centrality, if_neg h1] at hp
      rcases List.mem_map.1 hp with ⟨node, hnode, rfl⟩
      have hlen : 2 ≤ g.nodes.length := by omega
      have hdeg : (dictGetD g.adjacency node).length ≤ g.nodes.length - 1 := by
        rcases hget : dictGet g.adjacency node with _ | l
        · simp [dictGetD, hget]
        · have hpmem : (node, l) ∈ g.adjacency := dictGet_mem _ _ _ hget
          have hlnd : l.Nodup := hnd _ hpmem
          have hcard : l.length = l.toFinset.card :=
            (List.toFinset_card_of_nodup hlnd).symm
          have hsub : l.toFinset ⊆ g.nodes.toFinset.erase node := by
            intro u hu
            rw [List.mem_toFinset] at hu
            rw [Finset.mem_erase, List.mem_toFinset]
            refine ⟨?_, hmem _ hpmem u hu⟩
            intro huv
            exact hself _ hpmem (huv ▸ hu)
          have herase : (g.nodes.toFinset.erase node).card
              = g.nodes.toFinset.card - 1 :=
            Finset.card_erase_of_mem (List.mem_toFinset.2 hnode)
          have hnodes : g.nodes.toFinset.card = g.nodes.length :=
            List.toFinset_card_of_nodup hn
          calc (dictGetD g.adjacency node).length
              = l.toFinset.card := by rw [dictGetD, hget]; exact hcard
            _ ≤ (g.nodes.toFinset.erase node).card := Finset.card_le_card hsub
            _ = g.nodes.length - 1 := by rw [herase, hnodes]
      have hc1 : ((dictGetD g.adjacency node).length : Rat) + 1 ≤ (g.nodes.length : Rat) := by
        have : (dictGetD g.adjacency node).length + 1 ≤ g.nodes.length := by omega
        exact_mod_cast this
      have hpos : (0 : Rat) < (g.nodes.length : Rat) - 1 := by
        have : (2 : Rat) ≤ (g.nodes.length : Rat) := by exact_mod_cast hlen
        linarith
      rw [div_le_one hpos]
      linarith

/-- C5 witness: nonnegativity evaluated on the parallel-edge graph with
score `2` (first conjunct), the zero clause on the reachable self-loop
graph `add_edge("A", "A")` with one node (second conjunct), and the
upper bound on the simple single-edge graph `A-B` with score
`1 / (2 - 1) = 1` (third conjunct). -/
theorem c5_degree_centrality_bounds_witness :
    (0 : Rat) ≤ 2 ∧ (0 : Rat) = 0 ∧ (1 : Rat) ≤ 1 := by
  have hm2 : ("A", (2 : Rat)) ∈
      degree_centrality (add_edge (add_edge (emptyGraph false) "A" "B" 1) "A" "B" 1) := by
    have h : degree_centrality (add_edge (add_edge (emptyGraph false) "A" "B" 1) "A" "B" 1)
        = [("A", (2 : Rat)), ("B", (2 : Rat))] := by
      simp [degree_centrality, dictGetD, dictGet, emptyGraph, add_edge, add_node,
        dictHas, dictAppendAt]
      norm_num
    rw [h]
    exact List.mem_cons_self _ _
  have hm1 : ("A", (1 : Rat)) ∈ degree_centrality (add_edge (emptyGraph false) "A" "B" 1) := by
    have h : degree_centrality (add_edge (emptyGraph false) "A" "B" 1)
        = [("A", (1 : Rat)), ("B", (1 : Rat))] := by
      simp [degree_centrality, dictGetD, dictGet, emptyGraph, add_edge, add_node,
        dictHas, dictAppendAt]
      norm_num
    rw [h]
    exact List.mem_cons_self _ _
  refine ⟨?_, ?_, ?_⟩
  · exact (c5_degree_centrality_bounds
      (add_edge (add_edge (emptyGraph false) "A" "B" 1) "A" "B" 1)).1 ("A", (2 : Rat)) hm2
  · exact (c5_degree_centrality_bounds (add_edge (emptyGraph false) "A" "A" 1)).2.1
      (by decide) ("A", (0 : Rat)) (by decide)
  · exact (c5_degree_centrality_bounds (add_edge (emptyGraph false) "A" "B" 1)).2.2
      (by decide) (by decide) (by decide) (by decide) ("A", (1 : Rat)) hm1

/-- C6 counterexample: the stub `detect_communities` of `analyzer.py`
is claimed to fail with a typed error for an unrecognized method name;
it instead ignores `method` altogether and returns the node-list
bisection normally for any string, here for a name no algorithm has. -/
theorem c6_counterexample_stub_detect_communities :
    detect_communities ["A", "B"] "no-such-algorithm"
      = [({"A"} : Finset String), ({"B"} : Finset String)] := by
  decide

/-- C7: every state reachable by `add_node` / `add_edge` calls keeps
both endpoints of every stored edge in the node set and every adjacency
key and adjacency neighbor in the node set; and `add_edge` implicitly
creates its endpoints, so after any `add_edge` call both of them are
members of the node set. -/
theorem c7_graph_invariant (g : GraphState) (h : Reachable g) :
    Inv g ∧ ∀ s t w, s ∈ (add_edge g s t w).nodes ∧ t ∈ (add_edge g s t w).nodes := by
  refine ⟨reachable_inv g h, ?_⟩
  intro s t w
  rw [add_edge_nodes]
  exact ⟨add_node_nodes_subset _ t (self_mem_add_node g s), self_mem_add_node _ t⟩

/-- C7 witness: the invariant evaluated on the concrete reachable state
reached by one `add_edge("A", "B")` call, and the implicit creation of
the absent endpoints `C`, `D` by a further `add_edge("C", "D")`. -/
theorem c7_graph_invariant_witness :
    Inv (add_edge (emptyGraph false) "A" "B" 1) ∧
    "C" ∈ (add_edge (add_edge (emptyGraph false) "A" "B" 1) "C" "D" 1).nodes ∧
    "D" ∈ (add_edge (add_edge (emptyGraph false) "A" "B" 1) "C" "D" 1).nodes := by
  have h := c7_graph_invariant (add_edge (emptyGraph false) "A" "B" 1)
    (Reachable.addEdge _ _ _ _ (Reachable.init false))
  exact ⟨h.1, (h.2 "C" "D" 1).1, (h.2 "C" "D" 1).2⟩

/-- C8: the `density` reported by `process` equals
`edge_count / (n * (n - 1))` when the graph ends up with more than one
node and `0` when it ends up with at most one, where both counts are
taken on the mutated state (parallel entries included). -/
theorem c8_process_density (g : GraphState) (es : List (String × String))
    (hd : g.directed = false) :
    (1 < (process g es).2.nodes.length →
      (process g es).1.density = ((process g es).2.edges.length : Rat) /
        (((process g es).2.nodes.length : Rat) *
          (((process g es).2.nodes.length : Rat) - 1))) ∧
    ((process g es).2.nodes.length ≤ 1 → (process g es).1.density = 0) :=
  ⟨fun h => if_pos h, fun h => if_neg (Nat.not_lt.2 h)⟩

/-- C8 witness: processing the single edge `A-B` from the empty
undirected graph gives two nodes, one edge, and density
`1 / (2 * 1) = 1/2`. -/
theorem c8_process_density_witness :
    (process (emptyGraph false) [("A", "B")]).1.density = 1/2 := by
  have h := (c8_process_density (emptyGraph false) [("A", "B")] rfl).1 (by decide)
  rw [h]
  have hn : (process (emptyGraph false) [("A", "B")]).2.nodes.length = 2 := rfl
  have he : (process (emptyGraph false) [("A", "B")]).2.edges.length = 1 := rfl
  rw [hn, he]
  norm_num

end Analyzer

namespace NxAnalyzer

/-- C6 amended: in `graph_analyzer.py`, `calculate_centrality` fails
with the typed unknown-measure failure (the source's
`ValueError(f"Unknown centrality measure: ...")`) exactly for measure
names outside the five recognized ones; for a recognized name the call
delegates to the library and can never produce the unknown-measure
failure, whatever the library does.  (The stub `detect_communities` of
`analyzer.py` is the exception the counterexample exhibits: it accepts
any method string without error.) -/
theorem c6_calculate_centrality_dispatch {γ : Type} (lib : NxLib γ) (g : γ)
    (measure : String) :
    (measure ∉ recognizedMeasures →
      calculate_centrality lib g measure
        = Except.error (CentralityError.unknownMeasure measure)) ∧
    (measure ∈ recognizedMeasures →
      ∀ m2, calculate_centrality lib g measure
        ≠ Except.error (CentralityError.unknownMeasure m2)) := by
  constructor
  · intro h
    simp only [recognizedMeasures, List.mem_cons, List.not_mem_nil, or_false,
      not_or] at h
    obtain ⟨h1, h2, h3, h4, h5⟩ := h
    simp [calculate_centrality, h1, h2, h3, h4, h5]
  · intro h m2
    simp only [recognizedMeasures, List.mem_cons, List.not_mem_nil, or_false] at h
    rcases h with rfl | rfl | rfl | rfl | rfl
    · cases hres : lib.degree_centrality g <;>
        simp [calculate_centrality, liftLib, hres]
    · cases hres : lib.betweenness_centrality g <;>
        simp [calculate_centrality, liftLib, hres]
    · cases hres : lib.closeness_centrality g <;>
        simp [calculate_centrality, liftLib, hres]
    · cases hres : lib.eigenvector_centrality g 1000 <;>
        simp [calculate_centrality, liftLib, hres]
    · cases hres : lib.pagerank g <;>
        simp [calculate_centrality, liftLib, hres]

/-- C6 witness: the dispatcher over the concrete trivial library fails
with the typed unknown-measure failure on `"harmonic"` and cannot
produce it on the recognized `"degree"`. -/
theorem c6_calculate_centrality_dispatch_witness :
    calculate_centrality trivialLib () "harmonic"
      = Except.error (CentralityError.unknownMeasure "harmonic") ∧
    calculate_centrality trivialLib () "degree"
      ≠ Except.error (CentralityError.unknownMeasure "degree") :=
  ⟨(c6_calculate_centrality_dispatch trivialLib () "harmonic").1 (by decide),
   (c6_calculate_centrality_dispatch trivialLib () "degree").2 (by decide) "degree"⟩

end NxAnalyzer

namespace Analyzer

theorem foldl_add_edge_edges (g : GraphState) (es : List (String × String)) :
    (es.foldl (fun acc e => add_edge acc e.1 e.2 1) g).edges
      = g.edges ++ es.map (fun e => (e.1, e.2, (1 : Rat))) := by
  induction es generalizing g with
  | nil => simp
  | cons e rest ih =>
      simp only [List.foldl_cons, List.map_cons]
      rw [ih, add_edge_edges]
      simp

theorem foldl_add_edge_nodes_subset (g : GraphState) (es : List (String × String)) :
    g.nodes ⊆ (es.foldl (fun acc e => add_edge acc e.1 e.2 1) g).nodes := by
  induction es generalizing g with
  | nil => exact fun x hx => hx
  | cons e rest ih =>
      intro x hx
      exact ih (add_edge g e.1 e.2 1) (add_edge_nodes_subset g e.1 e.2 1 hx)

/-- C9: `process` mutates the analyzer it runs on.  The state coming
out of `process` carries the previously stored edges with the supplied
ones appended (default weight `1.0`), the old node set survives into
the new one, and the reported `num_nodes`, `num_edges` and `density`
count that accumulated state — the density's numerator is the
pre-existing edge count plus the batch size, its denominator the
accumulated node count — so a second `process` call on the same
analyzer reports the totals of both edge batches on top of the
pre-existing edges. -/
theorem c9_process_accumulates (g : GraphState) (es1 es2 : List (String × String)) :
    (process g es1).2.edges = g.edges ++ es1.map (fun e => (e.1, e.2, (1 : Rat))) ∧
    (process g es1).1.num_edges = g.edges.length + es1.length ∧
    (process g es1).1.num_nodes = (process g es1).2.nodes.length ∧
    g.nodes ⊆ (process g es1).2.nodes ∧
    (process g es1).1.density =
      (if 1 < (process g es1).2.nodes.length then
        ((g.edges.length + es1.length : Nat) : Rat) /
          (((process g es1).2.nodes.length : Rat) *
            (((process g es1).2.nodes.length : Rat) - 1))
      else 0) ∧
    (process (process g es1).2 es2).1.num_edges
      = g.edges.length + es1.length + es2.length := by
  have h3 : (process g es1).2.edges.length = g.edges.length + es1.length := by
    have h := congrArg List.length (foldl_add_edge_edges g es1)
    simp only [List.length_append, List.length_map] at h
    exact h
  refine ⟨foldl_add_edge_edges g es1, h3, rfl, foldl_add_edge_nodes_subset g es1, ?_, ?_⟩
  · have hdef : (process g es1).1.density =
        (if 1 < (process g es1).2.nodes.length then
          ((process g es1).2.edges.length : Rat) /
            (((process g es1).2.nodes.length : Rat) *
              (((process g es1).2.nodes.length : Rat) - 1))
        else 0) := rfl
    rw [hdef, h3]
  · have h2 := congrArg List.length (foldl_add_edge_edges (process g es1).2 es2)
    simp only [List.length_append, List.length_map] at h2
    rw [h3] at h2
    exact h2

end Analyzer

namespace Analyzer

/-- C10: the stub `detect_communities` ignores its `method` argument —
for one fixed enumeration `order` of the node set of a reachable graph
(Python iterates an unmodified set consistently within a process), any
two method strings produce the same value and no string can make the
total function fail — and the two returned halves are disjoint with
union the whole node set. -/
theorem c10_detect_communities_method_independent (g : GraphState)
    (order : List String) (m1 m2 : String)
    (hg : Reachable g) (hp : order.Perm g.nodes) :
    detect_communities order m1 = detect_communities order m2 ∧
    (detect_communities order m1).Pairwise Disjoint ∧
    (detect_communities order m1).foldr (· ∪ ·) ∅ = g.nodes.toFinset := by
  have hnd : order.Nodup := hp.nodup_iff.2 (reachable_nodes_nodup g hg)
  have hsplit : (order.take (order.length / 2)).Disjoint
      (order.drop (order.length / 2)) := by
    have h := hnd
    rw [← List.take_append_drop (order.length / 2) order, List.nodup_append] at h
    exact h.2.2
  refine ⟨rfl, ?_, ?_⟩
  · refine List.Pairwise.cons ?_ (List.pairwise_singleton _ _)
    intro c hc
    rw [List.mem_singleton] at hc
    subst hc
    rw [Finset.disjoint_left]
    intro a ha hb
    rw [List.mem_toFinset] at ha hb
    exact hsplit ha hb
  · show (order.take (order.length / 2)).toFinset ∪
        ((order.drop (order.length / 2)).toFinset ∪ ∅) = g.nodes.toFinset
    rw [Finset.union_empty, ← List.toFinset_append, List.take_append_drop]
    exact List.toFinset_eq_of_perm _ _ hp

/-- C10 witness: evaluated on the reachable single-edge graph `A-B`
with its stored enumeration and the method names `louvain` and
`label_propagation`. -/
theorem c10_detect_communities_witness :
    detect_communities (add_edge (emptyGraph false) "A" "B" 1).nodes "louvain"
      = detect_communities (add_edge (emptyGraph false) "A" "B" 1).nodes
          "label_propagation" ∧
    (detect_communities (add_edge (emptyGraph false) "A" "B" 1).nodes
      "louvain").Pairwise Disjoint ∧
    (detect_communities (add_edge (emptyGraph false) "A" "B" 1).nodes
      "louvain").foldr (· ∪ ·) ∅
      = (add_edge (emptyGraph false) "A" "B" 1).nodes.toFinset :=
  c10_detect_communities_method_independent (add_edge (emptyGraph false) "A" "B" 1)
    (add_edge (emptyGraph false) "A" "B" 1).nodes "louvain" "label_propagation"
    (Reachable.addEdge _ _ _ _ (Reachable.init false)) (List.Perm.refl _)

end Analyzer
